import Mathlib

set_option maxHeartbeats 1000000

/-!
Verification of the synchronization core of `src/crypto_bot/smart_binance_downloader.py`.

The embedding below translates the source functions into Lean:

* calendar dates (`Date`, proleptic Gregorian as Python's `datetime.date`),
  with `daterange`, `get_months_between` (lines 11-21 of the source);
* the gap planner of `main` (lines 58-73): `tasksForMonth`, `planTasks`;
* `download_with_backoff` (lines 29-42), with the unbounded retry loop
  modelled by explicit fuel and the invocations of `download_func` modelled
  as a function from the attempt index to a result; error messages are
  modelled as byte lists, and the rate-limit test reproduces the Python
  substring checks `"429" in str(e)` and `"rate limit" in str(e).lower()`;
* the merge-and-persist block of `main` (lines 111-137): `get_existing_dates`
  (dates of timestamps, where a calendar date of an epoch-millisecond
  timestamp is modelled by its epoch-day number `ts / 86400000`, which is
  compatible with equality of `datetime.date` values), `filterNewRows`
  (line 115), `dedupByTs` (pandas `drop_duplicates(subset=[0])`, which keeps
  the first occurrence of each key), `mergeRecords` (lines 130-133) and
  `persistStep` (lines 126-137);
* the orchestration `runSync` over an abstract fetch collaborator;
* the file-system effect of the final `merged.to_csv(merged_csv, ...)`
  (line 134): `DataFrame.to_csv(path)` opens the destination path itself for
  writing, truncating it, and then streams the rows; modelled by `persistOps`
  and the file-system semantics `applyOps`.
-/

/-- Calendar date, as Python `datetime.date` (proleptic Gregorian). -/
structure Date where
  y : Nat
  m : Nat
  d : Nat
deriving DecidableEq

/-- Gregorian leap-year rule, as Python's `calendar`/`datetime`. -/
def isLeap (y : Nat) : Bool := y % 4 == 0 && (y % 100 != 0 || y % 400 == 0)

/-- Lengths of the twelve months of year `y`. -/
def monthLengths (y : Nat) : List Nat :=
  [31, if isLeap y then 29 else 28, 31, 30, 31, 30, 31, 31, 30, 31, 30, 31]

/-- Number of days of month `m` (1-based) of year `y`. -/
def daysInMonth (y m : Nat) : Nat := (monthLengths y).getD (m - 1) 0

/-- Days of year `y` that lie before month `m` (1-based). -/
def daysBeforeMonth (y m : Nat) : Nat := ((monthLengths y).take (m - 1)).sum

def daysInYear (y : Nat) : Nat := if isLeap y then 366 else 365

def daysBeforeYear : Nat → Nat
  | 0 => 0
  | y + 1 => daysBeforeYear y + daysInYear y

/-- Absolute day number of a date; the device by which `timedelta` arithmetic
of the source is modelled. -/
def toN (dt : Date) : Nat := daysBeforeYear dt.y + daysBeforeMonth dt.y dt.m + dt.d

/-- The dates that `datetime.date` can actually represent. -/
def validDate (dt : Date) : Prop :=
  1 ≤ dt.m ∧ dt.m ≤ 12 ∧ 1 ≤ dt.d ∧ dt.d ≤ daysInMonth dt.y dt.m

instance : DecidablePred validDate := fun dt => by unfold validDate; infer_instance

/-- Lexicographic order on (year, month, day): Python date `<`. -/
def dateLtP (a b : Date) : Prop :=
  a.y < b.y ∨ (a.y = b.y ∧ (a.m < b.m ∨ (a.m = b.m ∧ a.d < b.d)))

instance : ∀ a b, Decidable (dateLtP a b) := fun a b => by unfold dateLtP; infer_instance

def dateLt (a b : Date) : Bool := decide (dateLtP a b)

def dateLe (a b : Date) : Bool := dateLt a b || decide (a = b)

/-- Python `max` on two dates. -/
def dateMax (a b : Date) : Date := if dateLt a b then b else a

/-- Python `min` on two dates. -/
def dateMin (a b : Date) : Date := if dateLe a b then a else b

/-- `+ timedelta(days=1)` on a valid date. -/
def nextDay (dt : Date) : Date :=
  if dt.d < daysInMonth dt.y dt.m then ⟨dt.y, dt.m, dt.d + 1⟩
  else if dt.m < 12 then ⟨dt.y, dt.m + 1, 1⟩
  else ⟨dt.y + 1, 1, 1⟩

/-- `- timedelta(days=1)` on a valid date. -/
def prevDay (dt : Date) : Date :=
  if 1 < dt.d then ⟨dt.y, dt.m, dt.d - 1⟩
  else if 1 < dt.m then ⟨dt.y, dt.m - 1, daysInMonth dt.y (dt.m - 1)⟩
  else ⟨dt.y - 1, 12, 31⟩

/-- `date.replace(day=1)`, line 17 of the source. -/
def firstOfMonth (dt : Date) : Date := ⟨dt.y, dt.m, 1⟩

/-- `+ relativedelta(months=1)`; the source only applies it to
first-of-month dates, for which no day clamping can occur. -/
def addMonth (dt : Date) : Date :=
  if dt.m < 12 then ⟨dt.y, dt.m + 1, dt.d⟩ else ⟨dt.y + 1, 1, dt.d⟩

/-- Linear index of a calendar month, used to size the loop fuel. -/
def monthIdx (dt : Date) : Nat := dt.y * 12 + dt.m

def daterangeAux : Date → Nat → List Date
  | _, 0 => []
  | dt, n + 1 => dt :: daterangeAux (nextDay dt) n

/-- `daterange(start_date, end_date)` of the source (lines 11-13): the dates
from `start_date` to `end_date` inclusive, empty when `end_date < start_date`
(`range(int((end_date - start_date).days) + 1)`). -/
def daterange (s e : Date) : List Date := daterangeAux s (toN e + 1 - toN s)

/-- The dates of a half-open range `[s, e)`; the date range covered by a
fetch task, whose `rangeEnd` is exclusive. -/
def daterangeX (s e : Date) : List Date := daterangeAux s (toN e - toN s)

def monthsBetweenAux (e : Date) : Nat → Date → List Date
  | 0, _ => []
  | fuel + 1, cur =>
    if dateLe cur e then cur :: monthsBetweenAux e fuel (addMonth cur) else []

/-- `get_months_between(start_date, end_date)` of the source (lines 15-21):
first days of months, starting at the first of `start_date`'s month, while
`current <= end_date`.  The `while` loop is modelled with fuel that is
sufficient for all valid dates, since each `addMonth` step increases
`monthIdx` by one and the loop stops once `monthIdx cur > monthIdx e`. -/
def get_months_between (s e : Date) : List Date :=
  monthsBetweenAux e (monthIdx e + 1 - monthIdx (firstOfMonth s)) (firstOfMonth s)

/-- A fetch task of `files_to_download` (lines 69 and 73): granularity plus
`(range_start, range_end_exclusive)`. -/
inductive FetchTask
  | monthly (rs re : Date)
  | daily (rs re : Date)
deriving DecidableEq

/-- The calendar dates covered by a task's date range (end exclusive). -/
def taskDates : FetchTask → List Date
  | FetchTask.monthly a b => daterangeX a b
  | FetchTask.daily a b => daterangeX a b

/-- `month_end = (month + relativedelta(months=1)) - timedelta(days=1)`,
line 65. -/
def monthEndOf (m : Date) : Date := prevDay (addMonth m)

/-- `month_dates` of line 67: `daterange(max(month_start, start_date),
min(month_end, end_date))`. -/
def monthOverlap (s e m : Date) : List Date :=
  daterange (dateMax m s) (dateMin (monthEndOf m) e)

/-- The condition of line 68: `month_start >= start_date and month_end <=
end_date and not month_dates.issubset(existing_dates)`. -/
def monthlyCond (C : List Date) (s e m : Date) : Bool :=
  dateLe s m && dateLe (monthEndOf m) e &&
    !((monthOverlap s e m).all fun dd => C.contains dd)

/-- The body of the month loop (lines 63-73): one monthly task, or one daily
task per day of the overlap that is not in `existing_dates`. -/
def tasksForMonth (C : List Date) (s e m : Date) : List FetchTask :=
  if monthlyCond C s e m then [FetchTask.monthly m (addMonth m)]
  else
    (monthOverlap s e m).filterMap fun dd =>
      if C.contains dd then none else some (FetchTask.daily dd (nextDay dd))

/-- `files_to_download` as planned by lines 58-73 from coverage `C` and the
requested inclusive range `[s, e]`. -/
def planTasks (C : List Date) (s e : Date) : List FetchTask :=
  (get_months_between s e).flatMap fun m => tasksForMonth C s e m

/-! ## Backoff fetcher -/

/-- An exception raised by a download function; `msg` is the byte string of
`str(e)` (so 52, 50, 57 are the characters of the digit string `429`). -/
structure DlError where
  msg : List Nat
deriving DecidableEq

/-- Python substring test `pat in s`. -/
def containsSeq (pat : List Nat) : List Nat → Bool
  | [] => pat.isEmpty
  | c :: rest => pat.isPrefixOf (c :: rest) || containsSeq pat rest

/-- Python `str.lower()` on one ASCII byte. -/
def toLowerByte (c : Nat) : Nat := if 65 ≤ c ∧ c ≤ 90 then c + 32 else c

/-- Line 37 of the source: `"429" in str(e) or "rate limit" in
str(e).lower()`; the second pattern is the bytes of the string
`rate limit`. -/
def isRateLimit (e : DlError) : Bool :=
  containsSeq [52, 50, 57] e.msg ||
    containsSeq [114, 97, 116, 101, 32, 108, 105, 109, 105, 116] (e.msg.map toLowerByte)

/-- The retry loop of `download_with_backoff` (lines 29-42).  `op attempt` is
the outcome of the `attempt`-th invocation of `download_func`; the result is
the list of performed sleep durations together with the outcome (`none` when
the fuel bounding the unbounded `while True` loop runs out). -/
def downloadWithBackoffAux (op : Nat → Except DlError Unit) (maxBackoff : Nat) :
    Nat → Nat → Nat → Option (List Nat × Except DlError Unit)
  | _, _, 0 => none
  | attempt, sleepTime, fuel + 1 =>
    match op attempt with
    | Except.ok _ => some ([], Except.ok ())
    | Except.error e =>
      if isRateLimit e then
        match downloadWithBackoffAux op maxBackoff (attempt + 1)
            (min (sleepTime * 2) maxBackoff) fuel with
        | none => none
        | some (sleeps, r) => some (sleepTime :: sleeps, r)
      else some ([], Except.error e)

/-- `download_with_backoff(download_func, rate_limit_sleep, max_backoff, ...)`. -/
def download_with_backoff (op : Nat → Except DlError Unit)
    (rate_limit_sleep max_backoff fuel : Nat) : Option (List Nat × Except DlError Unit) :=
  downloadWithBackoffAux op max_backoff 0 rate_limit_sleep fuel

/-! ## Records, merging, persistence -/

/-- One row of a klines CSV file: timestamp in epoch milliseconds (column 0,
the dedup/sort key) plus the remaining uninterpreted columns. -/
structure Record where
  ts : Nat
  fields : List Int
deriving DecidableEq

def recLe (a b : Record) : Prop := a.ts ≤ b.ts

def recLt (a b : Record) : Prop := a.ts < b.ts

instance : DecidableRel recLe := fun a b => Nat.decLe a.ts b.ts

instance : DecidableRel recLt := fun a b => Nat.decLt a.ts b.ts

instance : IsTotal Record recLe := ⟨fun a b => Nat.le_total a.ts b.ts⟩

instance : IsTrans Record recLe := ⟨fun _ _ _ h1 h2 => Nat.le_trans h1 h2⟩

/-- `drop_duplicates(subset=[0])` of pandas, line 130: keep the first
occurrence of every timestamp, preserving order; `seen` accumulates the keys
already kept. -/
def dedupKeysAux (seen : List Nat) : List Record → List Record
  | [] => []
  | r :: rs =>
    if seen.contains r.ts then dedupKeysAux seen rs
    else r :: dedupKeysAux (r.ts :: seen) rs

def dedupByTs (l : List Record) : List Record := dedupKeysAux [] l

/-- Lines 130-133 of the source, for an existing dataset file:
`pd.concat([old_data, new_data]).drop_duplicates(subset=[0])` followed by
`sort_values(by=0)`. -/
def mergeRecords (old incoming : List Record) : List Record :=
  List.insertionSort recLe (dedupByTs (old ++ incoming))

/-- Lines 126-137 of the source.  `all_new_rows` is the list of per-task
DataFrames appended by line 116, so the guard `if all_new_rows:` of line 126
tests whether at least one frame was collected — it runs the merge block even
when every collected frame is empty.  `pd.concat(all_new_rows)` (line 127) is
the concatenation of the frames.  When no frame was collected nothing is
written (`"No new data to add."`); otherwise the merged dataset is written.
The boolean records whether the dataset file was rewritten. -/
def persistStep (old : List Record) (frames : List (List Record)) : List Record × Bool :=
  if frames.isEmpty then (old, false) else (mergeRecords old frames.flatten, true)

def msPerDay : Nat := 86400000

/-- The calendar date of an epoch-millisecond timestamp
(`pd.to_datetime(df[0], unit='ms').dt.date`), modelled by its epoch-day
number: two timestamps fall on the same calendar date iff they have the same
epoch-day number. -/
def dateNumOf (ts : Nat) : Nat := ts / msPerDay

/-- `get_existing_dates` (lines 23-27) for a dataset that exists: the set of
calendar dates of its records' timestamps. -/
def get_existing_dates (ds : List Record) : List Nat :=
  ds.map fun r => dateNumOf r.ts

/-- Line 115 of the source: `df = df[~df['date'].isin(existing_dates)]` —
drop every fetched row whose calendar date is already covered. -/
def filterNewRows (cov : List Nat) (fetched : List Record) : List Record :=
  fetched.filter fun r => !(cov.contains (dateNumOf r.ts))

/-! ## Sync orchestration -/

/-- Outcome of one run of `main`: dataset rewritten, nothing to add, or a
fatal configuration error.  The source has no code path producing
`configError`; the constructor exists so that claims about it can be
stated. -/
inductive SyncOutcome
  | updated (ds : List Record)
  | noNewData
  | configError
deriving DecidableEq

/-- The task loop of lines 75-124: for each planned task the external fetch
collaborator either produces a CSV file (`some rows`: one DataFrame is
appended to `all_new_rows` after the covered-date filter of line 115, even
when that filter leaves the frame empty) or yields no file / fails (`none`:
nothing is appended, the task is skipped).  `dateOfTs` is the external
pandas timestamp-to-date conversion. -/
def collectNewFrames (cov : List Date) (dateOfTs : Nat → Date) (tasks : List FetchTask)
    (fetchRes : FetchTask → Option (List Record)) : List (List Record) :=
  tasks.filterMap fun t =>
    match fetchRes t with
    | none => none
    | some rows => some (rows.filter fun r => !(cov.contains (dateOfTs r.ts)))

/-- One run of `main` (lines 44-137) over the external collaborators:
coverage is derived once at the start, tasks are planned, fetched rows are
collected, and the merge block runs. -/
def runSync (cov : List Date) (dateOfTs : Nat → Date) (s e : Date) (old : List Record)
    (fetchRes : FetchTask → Option (List Record)) : SyncOutcome :=
  let frames := collectNewFrames cov dateOfTs (planTasks cov s e) fetchRes
  if frames.isEmpty then SyncOutcome.noNewData
  else SyncOutcome.updated (persistStep old frames).1

/-! ## File-system effect of the final write -/

/-- Elementary file operations performed by `merged.to_csv(merged_csv, ...)`
(line 134): the destination is opened for writing (truncated), the rows are
streamed, the file is closed.  Paths are numbers, file contents byte lists. -/
inductive FileOp
  | openTrunc (path : Nat)
  | writeChunk (path : Nat) (chunk : List Nat)
  | closeFile (path : Nat)
deriving DecidableEq

/-- The operation sequence of the final write: `to_csv` writes directly to
the destination path `target` — there is no temporary file and no rename. -/
def persistOps (target : Nat) (rows : List (List Nat)) : List FileOp :=
  FileOp.openTrunc target :: ((rows.map fun r => FileOp.writeChunk target r) ++
    [FileOp.closeFile target])

/-- Effect of one file operation on a file system (path to optional content). -/
def applyOp (fs : Nat → Option (List Nat)) : FileOp → Nat → Option (List Nat)
  | FileOp.openTrunc p => fun q => if q = p then some [] else fs q
  | FileOp.writeChunk p c => fun q => if q = p then some ((fs p).getD [] ++ c) else fs q
  | FileOp.closeFile _ => fs

def applyOps (fs : Nat → Option (List Nat)) (ops : List FileOp) : Nat → Option (List Nat) :=
  ops.foldl applyOp fs

/-! ## Calendar lemmas -/

theorem daysInMonth_pos (y m : Nat) (h1 : 1 ≤ m) (h2 : m ≤ 12) : 1 ≤ daysInMonth y m := by
  interval_cases m <;> cases h : isLeap y <;> simp [daysInMonth, monthLengths, h]

theorem daysBeforeMonth_succ (y m : Nat) (h1 : 1 ≤ m) (h2 : m ≤ 12) :
    daysBeforeMonth y (m + 1) = daysBeforeMonth y m + daysInMonth y m := by
  interval_cases m <;> cases h : isLeap y <;>
    simp [daysBeforeMonth, daysInMonth, monthLengths, h]

theorem sum_take_mono (l : List Nat) {n k : Nat} (h : n ≤ k) :
    (l.take n).sum ≤ (l.take k).sum := by
  have h1 : l.take n = (l.take k).take n := by
    rw [List.take_take, Nat.min_eq_left h]
  rw [h1]
  conv_rhs => rw [← List.take_append_drop n (l.take k)]
  rw [List.sum_append]
  exact Nat.le_add_right _ _

theorem daysBeforeMonth_mono (y : Nat) {m1 m2 : Nat} (h : m1 ≤ m2) :
    daysBeforeMonth y m1 ≤ daysBeforeMonth y m2 :=
  sum_take_mono _ (Nat.sub_le_sub_right h 1)

theorem daysBeforeMonth_13 (y : Nat) : daysBeforeMonth y 13 = daysInYear y := by
  cases h : isLeap y <;> simp [daysBeforeMonth, monthLengths, daysInYear, h]

theorem daysBeforeYear_mono {y1 y2 : Nat} (h : y1 ≤ y2) :
    daysBeforeYear y1 ≤ daysBeforeYear y2 := by
  induction h with
  | refl => exact Nat.le_refl _
  | step _ ih => exact Nat.le_trans ih (Nat.le_add_right _ _)

theorem toN_lt_of_lex {a b : Date} (ha : validDate a) (hb : validDate b)
    (h : dateLtP a b) : toN a < toN b := by
  obtain ⟨ay, am, ad⟩ := a
  obtain ⟨yb, bm, bd⟩ := b
  simp only [validDate] at ha hb
  obtain ⟨ham1, ham2, had1, had2⟩ := ha
  obtain ⟨hbm1, hbm2, hbd1, hbd2⟩ := hb
  simp only [dateLtP] at h
  simp only [toN] at *
  rcases h with hy | ⟨hy, hm | ⟨hm, hd⟩⟩
  · have h1 : daysBeforeMonth ay (am + 1) = daysBeforeMonth ay am + daysInMonth ay am :=
      daysBeforeMonth_succ ay am ham1 ham2
    have h2 : daysBeforeMonth ay (am + 1) ≤ daysBeforeMonth ay 13 :=
      daysBeforeMonth_mono ay (by omega)
    have h3 : daysBeforeYear (ay + 1) = daysBeforeYear ay + daysInYear ay := rfl
    have h4 : daysBeforeYear (ay + 1) ≤ daysBeforeYear yb := daysBeforeYear_mono (by omega)
    have h5 := daysBeforeMonth_13 ay
    omega
  · subst hy
    have h1 : daysBeforeMonth ay (am + 1) = daysBeforeMonth ay am + daysInMonth ay am :=
      daysBeforeMonth_succ ay am ham1 ham2
    have h2 : daysBeforeMonth ay (am + 1) ≤ daysBeforeMonth ay bm :=
      daysBeforeMonth_mono ay (by omega)
    omega
  · subst hy; subst hm; omega

theorem dateLtP_trichotomy (a b : Date) : a = b ∨ dateLtP a b ∨ dateLtP b a := by
  obtain ⟨ay, am, ad⟩ := a
  obtain ⟨yb, bm, bd⟩ := b
  simp only [dateLtP, Date.mk.injEq]
  omega

theorem dateLt_iff_toN {a b : Date} (ha : validDate a) (hb : validDate b) :
    dateLt a b = true ↔ toN a < toN b := by
  constructor
  · intro h
    exact toN_lt_of_lex ha hb (of_decide_eq_true h)
  · intro h
    rcases dateLtP_trichotomy a b with rfl | hl | hl
    · omega
    · exact decide_eq_true hl
    · exact absurd (toN_lt_of_lex hb ha hl) (by omega)

theorem dateLe_iff_toN {a b : Date} (ha : validDate a) (hb : validDate b) :
    dateLe a b = true ↔ toN a ≤ toN b := by
  rcases dateLtP_trichotomy a b with rfl | hl | hl
  · simp [dateLe]
  · have h2 := toN_lt_of_lex ha hb hl
    simp only [dateLe, Bool.or_eq_true]
    constructor
    · intro _; omega
    · intro _; exact Or.inl (decide_eq_true hl)
  · have h2 := toN_lt_of_lex hb ha hl
    have h3 : dateLt a b = false := by
      rw [Bool.eq_false_iff]
      intro hc
      exact absurd (toN_lt_of_lex ha hb (of_decide_eq_true hc)) (by omega)
    have h4 : a ≠ b := by
      intro hc; rw [hc] at h2; omega
    simp only [dateLe, h3, Bool.false_or, decide_eq_true_eq]
    constructor
    · intro hc; exact absurd hc h4
    · intro hc; omega

theorem addMonth_month_props {cur : Date} (h1 : cur.d = 1) (h2 : 1 ≤ cur.m) (h3 : cur.m ≤ 12) :
    (addMonth cur).d = 1 ∧ 1 ≤ (addMonth cur).m ∧ (addMonth cur).m ≤ 12 := by
  unfold addMonth
  split <;> refine ⟨h1, ?_, ?_⟩ <;> simp <;> omega

theorem mem_monthsBetweenAux {e : Date} :
    ∀ (fuel : Nat) (cur c : Date), cur.d = 1 → 1 ≤ cur.m → cur.m ≤ 12 →
      c ∈ monthsBetweenAux e fuel cur →
      c.d = 1 ∧ 1 ≤ c.m ∧ c.m ≤ 12 ∧ dateLe c e = true := by
  intro fuel
  induction fuel with
  | zero =>
    intro cur c _ _ _ h
    simp [monthsBetweenAux] at h
  | succ n ih =>
    intro cur c h1 h2 h3 h
    rw [monthsBetweenAux] at h
    split at h
    · rcases List.mem_cons.mp h with rfl | hmem
      · refine ⟨h1, h2, h3, ?_⟩
        assumption
      · obtain ⟨p1, p2, p3⟩ := addMonth_month_props h1 h2 h3
        exact ih (addMonth cur) c p1 p2 p3 hmem
    · simp at h

theorem validDate_of_month {m : Date} (h1 : m.d = 1) (h2 : 1 ≤ m.m) (h3 : m.m ≤ 12) :
    validDate m :=
  ⟨h2, h3, by omega, by rw [h1]; exact daysInMonth_pos m.y m.m h2 h3⟩

theorem daysInMonth_12 (y : Nat) : daysInMonth y 12 = 31 := rfl

theorem monthEndOf_spec {m : Date} (h1 : m.d = 1) (h2 : 1 ≤ m.m) (h3 : m.m ≤ 12) :
    validDate (monthEndOf m) ∧ toN m ≤ toN (monthEndOf m) := by
  obtain ⟨my, mm, md⟩ := m
  simp only at h1 h2 h3
  subst h1
  unfold monthEndOf addMonth prevDay
  by_cases h : mm < 12
  · rw [if_pos h]
    simp only [show ¬(1 < (1:Nat)) from by omega, if_false, show (1:Nat) < mm + 1 from by omega,
      if_true, Nat.add_sub_cancel]
    have hpos := daysInMonth_pos my mm h2 (by omega)
    constructor
    · exact ⟨h2, by show mm ≤ 12; omega, by show 1 ≤ daysInMonth my mm; omega,
        by show daysInMonth my mm ≤ daysInMonth my mm; omega⟩
    · show toN ⟨my, mm, 1⟩ ≤ toN ⟨my, mm, daysInMonth my mm⟩
      simp only [toN]
      omega
  · rw [if_neg h]
    have hm12 : mm = 12 := by omega
    subst hm12
    simp only [show ¬(1 < (1:Nat)) from by omega, if_false, show ¬((1:Nat) < 1) from by omega,
      Nat.add_sub_cancel]
    constructor
    · exact ⟨by show 1 ≤ 12; omega, by show (12:Nat) ≤ 12; omega, by show 1 ≤ 31; omega,
        by show (31:Nat) ≤ daysInMonth my 12; rw [daysInMonth_12]⟩
    · show toN ⟨my, 12, 1⟩ ≤ toN ⟨my, 12, 31⟩
      simp only [toN]
      omega

theorem toN_dateMin_le_right {a b : Date} (ha : validDate a) (hb : validDate b) :
    toN (dateMin a b) ≤ toN b := by
  unfold dateMin
  split
  · exact (dateLe_iff_toN ha hb).mp (by assumption)
  · exact Nat.le_refl _

theorem toN_dateMax_ge_right {a b : Date} (ha : validDate a) (hb : validDate b) :
    toN b ≤ toN (dateMax a b) := by
  unfold dateMax
  split
  · exact Nat.le_refl _
  · rename_i h
    rcases dateLtP_trichotomy a b with rfl | hl | hl
    · exact Nat.le_refl _
    · exact absurd (decide_eq_true hl) h
    · exact Nat.le_of_lt (toN_lt_of_lex hb ha hl)

theorem daterange_eq_nil {a b : Date} (h : toN b < toN a) : daterange a b = [] := by
  unfold daterange
  have h0 : toN b + 1 - toN a = 0 := by omega
  rw [h0]
  rfl

theorem tasksForMonth_eq_nil_of_end_lt {C : List Date} {s e m : Date}
    (hs : validDate s) (he : validDate e) (hm1 : m.d = 1) (hm2 : 1 ≤ m.m) (hm3 : m.m ≤ 12)
    (hlt : toN e < toN s) : tasksForMonth C s e m = [] := by
  have hmv : validDate m := validDate_of_month hm1 hm2 hm3
  obtain ⟨hev, hle⟩ := monthEndOf_spec hm1 hm2 hm3
  have hcond : monthlyCond C s e m = false := by
    unfold monthlyCond
    cases h1 : dateLe s m
    · simp
    · cases h2 : dateLe (monthEndOf m) e
      · simp
      · exfalso
        have q1 := (dateLe_iff_toN hs hmv).mp h1
        have q2 := (dateLe_iff_toN hev he).mp h2
        omega
  have hov : monthOverlap s e m = [] := by
    unfold monthOverlap
    apply daterange_eq_nil
    have q1 := toN_dateMin_le_right hev he
    have q2 := toN_dateMax_ge_right hmv hs
    omega
  rw [tasksForMonth, hcond]
  simp [hov]

theorem planTasks_eq_nil_of_end_lt {C : List Date} {s e : Date}
    (hs : validDate s) (he : validDate e) (hlt : dateLt e s = true) :
    planTasks C s e = [] := by
  have hlt' : toN e < toN s := (dateLt_iff_toN he hs).mp hlt
  unfold planTasks
  rw [List.flatMap_eq_nil_iff]
  intro m hm
  obtain ⟨p1, p2, p3, _⟩ :=
    mem_monthsBetweenAux _ (firstOfMonth s) m rfl hs.1 hs.2.1 hm
  exact tasksForMonth_eq_nil_of_end_lt hs he p1 p2 p3 hlt'

/-! ## Deduplication lemmas -/

theorem contains_of_mem {s : List Nat} {a : Nat} (h : a ∈ s) : s.contains a = true := by
  induction s with
  | nil => cases h
  | cons x xs ih =>
    rcases List.mem_cons.mp h with rfl | h2
    · simp [List.contains_cons]
    · simp only [List.contains_cons, ih h2, Bool.or_true]

theorem mem_dedupKeysAux {r : Record} :
    ∀ (l : List Record) (seen : List Nat),
      r ∈ dedupKeysAux seen l ↔
        (seen.contains r.ts = false ∧ l.find? (fun x => x.ts == r.ts) = some r) := by
  intro l
  induction l with
  | nil =>
    intro seen
    simp [dedupKeysAux]
  | cons x xs ih =>
    intro seen
    rw [dedupKeysAux]
    by_cases hx : x.ts = r.ts
    · have hpx : (x.ts == r.ts) = true := beq_iff_eq.mpr hx
      rw [@List.find?_cons_of_pos Record (fun y => y.ts == r.ts) x xs hpx]
      by_cases hseen : seen.contains x.ts = true
      · rw [if_pos hseen, ih]
        have hrs : r.ts ∈ seen := by
          have h4 : x.ts ∈ seen := by simpa using hseen
          exact hx ▸ h4
        simp [hrs]
      · rw [if_neg hseen]
        have hrs : seen.contains r.ts = false := by
          rw [← hx]
          simpa using hseen
        constructor
        · intro hmem
          rcases List.mem_cons.mp hmem with rfl | hmem2
          · exact ⟨hrs, rfl⟩
          · exfalso
            have h2 := (ih (x.ts :: seen)).mp hmem2
            have h3 : (x.ts :: seen).contains r.ts = true := by
              simp [List.contains_cons, hx]
            rw [h3] at h2
            exact absurd h2.1 (by simp)
        · rintro ⟨_, hsome⟩
          have hxr : x = r := by injection hsome
          exact hxr ▸ List.mem_cons_self _ _
    · have hpx : ¬((x.ts == r.ts) = true) := by simp [hx]
      rw [@List.find?_cons_of_neg Record (fun y => y.ts == r.ts) x xs hpx]
      by_cases hseen : seen.contains x.ts = true
      · rw [if_pos hseen, ih]
      · rw [if_neg hseen]
        constructor
        · intro hmem
          rcases List.mem_cons.mp hmem with rfl | hmem2
          · exact absurd rfl hx
          · have h2 := (ih (x.ts :: seen)).mp hmem2
            refine ⟨?_, h2.2⟩
            have h3 := h2.1
            simp only [List.contains_cons, Bool.or_eq_false_iff] at h3
            exact h3.2
        · rintro ⟨hs, hf⟩
          apply List.mem_cons_of_mem
          rw [ih]
          refine ⟨?_, hf⟩
          simp only [List.contains_cons, Bool.or_eq_false_iff]
          refine ⟨?_, hs⟩
          simp only [beq_eq_false_iff_ne, ne_eq]
          intro hc
          exact hx hc.symm

theorem mem_of_mem_dedupKeysAux {r : Record} {seen : List Nat} {l : List Record}
    (h : r ∈ dedupKeysAux seen l) : r ∈ l :=
  List.mem_of_find?_eq_some ((mem_dedupKeysAux l seen).mp h).2

theorem not_seen_of_mem_dedupKeysAux {r : Record} {seen : List Nat} {l : List Record}
    (h : r ∈ dedupKeysAux seen l) : seen.contains r.ts = false :=
  ((mem_dedupKeysAux l seen).mp h).1

theorem pairwise_ne_dedupKeysAux :
    ∀ (l : List Record) (seen : List Nat),
      (dedupKeysAux seen l).Pairwise fun a b => a.ts ≠ b.ts := by
  intro l
  induction l with
  | nil => intro seen; simp [dedupKeysAux]
  | cons x xs ih =>
    intro seen
    rw [dedupKeysAux]
    split
    · exact ih seen
    · refine List.Pairwise.cons ?_ (ih (x.ts :: seen))
      intro b hb hc
      have h2 := not_seen_of_mem_dedupKeysAux hb
      simp only [List.contains_cons, Bool.or_eq_false_iff, beq_eq_false_iff_ne, ne_eq] at h2
      exact h2.1 hc.symm

theorem dedupKeysAux_eq_nil_of_seen :
    ∀ (l : List Record) (seen : List Nat),
      (∀ a ∈ l, seen.contains a.ts = true) → dedupKeysAux seen l = [] := by
  intro l
  induction l with
  | nil => intro seen _; rfl
  | cons x xs ih =>
    intro seen h
    rw [dedupKeysAux, if_pos (h x (List.mem_cons_self _ _))]
    exact ih seen fun a ha => h a (List.mem_cons_of_mem _ ha)

theorem dedupKeysAux_append_split :
    ∀ (l f : List Record) (seen : List Nat),
      l.Pairwise (fun a b => a.ts ≠ b.ts) →
      (∀ a ∈ l, seen.contains a.ts = false) →
      dedupKeysAux seen (l ++ f) =
        l ++ dedupKeysAux ((l.reverse.map fun a => a.ts) ++ seen) f := by
  intro l
  induction l with
  | nil => intro f seen _ _; simp
  | cons x xs ih =>
    intro f seen hpw hns
    rw [List.cons_append, dedupKeysAux,
      if_neg (by rw [hns x (List.mem_cons_self _ _)]; simp)]
    have harg : ∀ a ∈ xs, (x.ts :: seen).contains a.ts = false := by
      intro a ha
      have h1 : x.ts ≠ a.ts := (List.pairwise_cons.mp hpw).1 a ha
      have h2 := hns a (List.mem_cons_of_mem _ ha)
      simp only [List.contains_cons, Bool.or_eq_false_iff, beq_eq_false_iff_ne, ne_eq]
      exact ⟨fun hc => h1 hc.symm, h2⟩
    rw [ih f (x.ts :: seen) (List.Pairwise.of_cons hpw) harg]
    rw [List.reverse_cons, List.map_append, List.append_assoc]
    rfl

theorem dedup_retains_key {a : Record} {l : List Record} (h : a ∈ l) :
    ∃ b, b ∈ dedupByTs l ∧ b.ts = a.ts := by
  have hsome : (l.find? fun x => x.ts == a.ts).isSome := by
    rw [List.find?_isSome]
    exact ⟨a, h, by simp⟩
  obtain ⟨b, hb⟩ := Option.isSome_iff_exists.mp hsome
  have hts : b.ts = a.ts := by
    have h2 := List.find?_some hb
    simpa using h2
  refine ⟨b, ?_, hts⟩
  rw [show dedupByTs l = dedupKeysAux [] l from rfl, mem_dedupKeysAux]
  refine ⟨rfl, ?_⟩
  have hfun : (fun x : Record => x.ts == b.ts) = fun x : Record => x.ts == a.ts := by
    funext x
    rw [hts]
  rw [hfun, hb]

theorem mem_left_of_mem_dedup_append {r : Record} {D R : List Record}
    (h : r ∈ dedupByTs (D ++ R)) (hk : ∃ x ∈ D, x.ts = r.ts) : r ∈ D := by
  have h2 := ((mem_dedupKeysAux _ _).mp h).2
  rw [List.find?_append] at h2
  obtain ⟨x, hx, hxts⟩ := hk
  have hsome : (D.find? fun y => y.ts == r.ts).isSome := by
    rw [List.find?_isSome]
    exact ⟨x, hx, by simp [hxts]⟩
  obtain ⟨b, hb⟩ := Option.isSome_iff_exists.mp hsome
  rw [hb] at h2
  simp only [Option.or_some] at h2
  have hbr : b = r := by injection h2
  exact hbr ▸ List.mem_of_find?_eq_some hb

/-! ## Merge lemmas -/

theorem mergeRecords_perm (old incoming : List Record) :
    (mergeRecords old incoming).Perm (dedupByTs (old ++ incoming)) :=
  List.perm_insertionSort _ _

theorem mergeRecords_pairwise_ne (old incoming : List Record) :
    (mergeRecords old incoming).Pairwise fun a b => a.ts ≠ b.ts :=
  (List.Perm.pairwise_iff (fun h => Ne.symm h) (mergeRecords_perm old incoming)).mpr
    (pairwise_ne_dedupKeysAux _ _)

theorem mergeRecords_sorted (old incoming : List Record) :
    List.Sorted recLe (mergeRecords old incoming) :=
  List.sorted_insertionSort _ _

theorem mergeRecords_pairwise_lt (old incoming : List Record) :
    (mergeRecords old incoming).Pairwise recLt := by
  have h1 : (mergeRecords old incoming).Pairwise recLe := mergeRecords_sorted old incoming
  have h2 := mergeRecords_pairwise_ne old incoming
  exact (List.Pairwise.and h1 h2).imp fun {a b} h => Nat.lt_of_le_of_ne h.1 h.2

instance : IsAntisymm Record recLt :=
  ⟨fun a b h1 h2 => absurd (Nat.lt_trans h1 h2) (Nat.lt_irrefl _)⟩

theorem eq_of_perm_of_pairwise_lt {l1 l2 : List Record} (hp : l1.Perm l2)
    (h1 : l1.Pairwise recLt) (h2 : l2.Pairwise recLt) : l1 = l2 :=
  List.eq_of_perm_of_sorted hp h1 h2

theorem mergeRecords_idem (D R : List Record) :
    mergeRecords (mergeRecords D R) R = mergeRecords D R := by
  have hpw : (mergeRecords D R).Pairwise fun a b => a.ts ≠ b.ts :=
    mergeRecords_pairwise_ne D R
  have hsplit :=
    dedupKeysAux_append_split (mergeRecords D R) R [] hpw (fun a _ => rfl)
  have hnil :
      dedupKeysAux (((mergeRecords D R).reverse.map fun a => a.ts) ++ []) R = [] := by
    apply dedupKeysAux_eq_nil_of_seen
    intro a ha
    obtain ⟨b, hb1, hb2⟩ := dedup_retains_key (List.mem_append_right D ha)
    have hbM : b ∈ mergeRecords D R := (mergeRecords_perm D R).mem_iff.mpr hb1
    apply contains_of_mem
    rw [List.append_nil, List.mem_map]
    exact ⟨b, List.mem_reverse.mpr hbM, hb2⟩
  calc mergeRecords (mergeRecords D R) R
      = List.insertionSort recLe (dedupKeysAux [] (mergeRecords D R ++ R)) := rfl
    _ = List.insertionSort recLe (mergeRecords D R) := by
        rw [hsplit, hnil, List.append_nil]
    _ = mergeRecords D R := List.Sorted.insertionSort_eq (mergeRecords_sorted D R)

theorem dedupByTs_eq_self {D : List Record} (h : D.Pairwise fun a b => a.ts ≠ b.ts) :
    dedupByTs D = D := by
  have h2 := dedupKeysAux_append_split D [] [] h (fun a _ => rfl)
  rw [List.append_nil,
    show dedupKeysAux ((D.reverse.map fun a => a.ts) ++ []) [] = [] from rfl,
    List.append_nil] at h2
  exact h2

theorem mergeRecords_nil_of_sorted {D : List Record} (hD : D.Pairwise recLt) :
    mergeRecords D [] = D := by
  have hpwne : D.Pairwise fun a b => a.ts ≠ b.ts := hD.imp fun {a b} h => Nat.ne_of_lt h
  have hle : List.Sorted recLe D := hD.imp fun {a b} h => Nat.le_of_lt h
  calc mergeRecords D [] = List.insertionSort recLe (dedupByTs (D ++ [])) := rfl
    _ = List.insertionSort recLe D := by rw [List.append_nil, dedupByTs_eq_self hpwne]
    _ = D := List.Sorted.insertionSort_eq hle

/-! ## Backoff lemmas -/

theorem min_double_pow (a M i : Nat) :
    min (min (a * 2) M * 2 ^ i) M = min (a * 2 ^ (i + 1)) M := by
  have hpow : 1 ≤ 2 ^ i := Nat.one_le_two_pow
  rcases le_or_lt (a * 2) M with h | h
  · rw [Nat.min_eq_left h]
    congr 1
    rw [Nat.pow_succ]
    ring
  · rw [Nat.min_eq_right (Nat.le_of_lt h)]
    have h1 : M ≤ M * 2 ^ i := by
      calc M = M * 1 := (Nat.mul_one M).symm
        _ ≤ M * 2 ^ i := Nat.mul_le_mul_left M hpow
    have h2 : M ≤ a * 2 ^ (i + 1) := by
      calc M ≤ a * 2 := Nat.le_of_lt h
        _ = a * 2 * 1 := (Nat.mul_one _).symm
        _ ≤ a * 2 * 2 ^ i := Nat.mul_le_mul_left _ hpow
        _ = a * 2 ^ (i + 1) := by rw [Nat.pow_succ]; ring
    rw [Nat.min_eq_right h1, Nat.min_eq_right h2]

theorem backoff_sleeps (op : Nat → Except DlError Unit) (maxB : Nat) :
    ∀ (k attempt init : Nat), init ≤ maxB →
      (∀ i, i < k → ∃ e, op (attempt + i) = Except.error e ∧ isRateLimit e = true) →
      op (attempt + k) = Except.ok () →
      downloadWithBackoffAux op maxB attempt init (k + 1) =
        some (((List.range k).map fun i => min (init * 2 ^ i) maxB), Except.ok ()) := by
  intro k
  induction k with
  | zero =>
    intro attempt init _ _ hok
    rw [Nat.add_zero] at hok
    rw [downloadWithBackoffAux, hok]
    rfl
  | succ n ih =>
    intro attempt init hinit hfail hok
    obtain ⟨e, he1, he2⟩ := hfail 0 (Nat.succ_pos n)
    rw [Nat.add_zero] at he1
    have ihres := ih (attempt + 1) (min (init * 2) maxB) (Nat.min_le_right _ _)
      (fun i hi => by
        have h3 := hfail (i + 1) (by omega)
        rwa [show attempt + (i + 1) = attempt + 1 + i from by omega] at h3)
      (by rw [show attempt + 1 + n = attempt + (n + 1) from by omega]; exact hok)
    rw [downloadWithBackoffAux, he1]
    simp only [he2, if_true, ihres]
    congr 1
    congr 1
    rw [List.range_succ_eq_map, List.map_cons, List.map_map]
    congr 1
    · rw [Nat.pow_zero, Nat.mul_one, Nat.min_eq_left hinit]
    · apply List.map_congr_left
      intro i _
      show min (min (init * 2) maxB * 2 ^ i) maxB = min (init * 2 ^ (i + 1)) maxB
      exact min_double_pow init maxB i

theorem sum_map_range_eq (f : Nat → Nat) (n : Nat) :
    ((List.range n).map f).sum = ∑ i ∈ Finset.range n, f i := by
  induction n with
  | zero => simp
  | succ k ih =>
    rw [List.range_succ, List.map_append, List.sum_append, Finset.sum_range_succ, ih]
    simp

/-! ## File-operation lemmas -/

theorem applyOps_writeChunks (t : Nat) :
    ∀ (rows : List (List Nat)) (fs : Nat → Option (List Nat)) (c : List Nat),
      fs t = some c →
      applyOps fs (rows.map fun r => FileOp.writeChunk t r) t = some (c ++ rows.flatten) := by
  intro rows
  induction rows with
  | nil =>
    intro fs c h
    simpa [applyOps] using h
  | cons r rest ih =>
    intro fs c h
    have h2 : (applyOp fs (FileOp.writeChunk t r)) t = some (c ++ r) := by
      simp [applyOp, h]
    have h3 := ih (applyOp fs (FileOp.writeChunk t r)) (c ++ r) h2
    show applyOps (applyOp fs (FileOp.writeChunk t r))
        (rest.map fun r => FileOp.writeChunk t r) t = some (c ++ (r :: rest).flatten)
    rw [h3]
    simp

theorem applyOps_cons (fs : Nat → Option (List Nat)) (op : FileOp) (ops : List FileOp) :
    applyOps fs (op :: ops) = applyOps (applyOp fs op) ops := rfl

theorem applyOps_append (fs : Nat → Option (List Nat)) (l1 l2 : List FileOp) :
    applyOps fs (l1 ++ l2) = applyOps (applyOps fs l1) l2 := by
  simp [applyOps]

/-! ## Claims -/

/-- Claim C1, counterexample: at the shared timestamp 1 the merged dataset
keeps the record of the existing dataset (`fields = [10]`), not the incoming
record (`fields = [20]`): pandas `drop_duplicates` keeps the first occurrence
and `old_data` comes first in the concatenation, so the claim that the
incoming record wins is false. -/
theorem C1_cex :
    mergeRecords [⟨1, [10]⟩] [⟨1, [20]⟩] = [⟨1, [10]⟩] ∧
      (⟨1, [20]⟩ : Record) ∉ mergeRecords [⟨1, [10]⟩] [⟨1, [20]⟩] ∧
      (⟨1, [10]⟩ : Record).ts = (⟨1, [20]⟩ : Record).ts ∧
      (⟨1, [10]⟩ : Record) ≠ ⟨1, [20]⟩ :=
  ⟨by decide, by decide, rfl, by decide⟩

/-- Claim C1, amended: whenever a timestamp occurs both in the existing
dataset `D` and in the incoming records `R`, the merged dataset contains the
record from `D` at that timestamp, not the one from `R` (the existing record
wins, because `drop_duplicates(subset=[0])` keeps the first occurrence and
the existing data is concatenated first): every timestamp of `D` is still
represented in the merge by a record of `D`, and every merged record whose
timestamp occurs in `D` is a record of `D`. -/
theorem C1_amended_thm (D R : List Record) :
    (∀ x ∈ D, ∃ r, r ∈ mergeRecords D R ∧ r.ts = x.ts ∧ r ∈ D) ∧
      (∀ r ∈ mergeRecords D R, (∃ x ∈ D, x.ts = r.ts) → r ∈ D) := by
  constructor
  · intro x hx
    obtain ⟨b, hb1, hb2⟩ := dedup_retains_key (List.mem_append_left R hx)
    refine ⟨b, (mergeRecords_perm D R).mem_iff.mpr hb1, hb2, ?_⟩
    exact mem_left_of_mem_dedup_append hb1 ⟨x, hx, hb2.symm⟩
  · intro r hr hk
    exact mem_left_of_mem_dedup_append ((mergeRecords_perm D R).mem_iff.mp hr) hk

/-- Witness for the amended claim C1 at a concrete input. -/
theorem C1_witness : (⟨1, [10]⟩ : Record) ∈ ([⟨1, [10]⟩] : List Record) :=
  (C1_amended_thm [⟨1, [10]⟩] [⟨1, [20]⟩]).2 ⟨1, [10]⟩ (by decide)
    ⟨⟨1, [10]⟩, by decide, rfl⟩

/-- Claim C2, counterexample: with coverage `{0001-01-05}` and requested
range 0001-01-01 .. 0001-01-31, January has a covered in-range day and thirty
missing ones, yet the planner emits exactly one Monthly task and no Daily
task, because line 68 of the source tests `not month_dates.issubset(...)`
(some in-range day missing) rather than disjointness (no in-range day
covered). -/
theorem C2_cex :
    planTasks [⟨1, 1, 5⟩] ⟨1, 1, 1⟩ ⟨1, 1, 31⟩ =
        [FetchTask.monthly ⟨1, 1, 1⟩ ⟨1, 2, 1⟩] ∧
      (⟨1, 1, 5⟩ : Date) ∈ monthOverlap ⟨1, 1, 1⟩ ⟨1, 1, 31⟩ ⟨1, 1, 1⟩ ∧
      ([⟨1, 1, 5⟩] : List Date).contains ⟨1, 1, 5⟩ = true :=
  ⟨by decide, by decide, by decide⟩

/-- Claim C2, amended: a task is emitted iff it arises from a month of
`get_months_between`: a Monthly task for month `m` is emitted exactly when
the condition of line 68 holds — `m` lies entirely within `[start, end]`
(that is, `start <= m` and the month's last day is `<= end`) and at least one
in-range day of `m` is missing from the coverage; otherwise one Daily task is
emitted for exactly each in-range day of `m` that is not covered. -/
theorem C2_amended_thm (C : List Date) (s e : Date) (t : FetchTask) :
    t ∈ planTasks C s e ↔
      ∃ m ∈ get_months_between s e,
        (monthlyCond C s e m = true ∧ t = FetchTask.monthly m (addMonth m)) ∨
        (monthlyCond C s e m = false ∧
          ∃ dd ∈ monthOverlap s e m, C.contains dd = false ∧
            t = FetchTask.daily dd (nextDay dd)) := by
  unfold planTasks
  rw [List.mem_flatMap]
  constructor
  · rintro ⟨m, hm, ht⟩
    refine ⟨m, hm, ?_⟩
    unfold tasksForMonth at ht
    by_cases hc : monthlyCond C s e m = true
    · rw [if_pos hc] at ht
      exact Or.inl ⟨hc, List.mem_singleton.mp ht⟩
    · rw [if_neg hc] at ht
      refine Or.inr ⟨by simpa using hc, ?_⟩
      obtain ⟨dd, hdd, hdd2⟩ := List.mem_filterMap.mp ht
      by_cases hcc : C.contains dd = true
      · rw [if_pos hcc] at hdd2
        cases hdd2
      · rw [if_neg hcc] at hdd2
        refine ⟨dd, hdd, by simpa using hcc, ?_⟩
        injection hdd2 with h
        exact h.symm
  · rintro ⟨m, hm, hcase⟩
    refine ⟨m, hm, ?_⟩
    unfold tasksForMonth
    rcases hcase with ⟨hc, rfl⟩ | ⟨hc, dd, hdd, hcc, rfl⟩
    · rw [if_pos hc]
      exact List.mem_singleton.mpr rfl
    · rw [if_neg (by simp [hc])]
      exact List.mem_filterMap.mpr ⟨dd, hdd, by rw [if_neg (by rw [hcc]; simp)]⟩

/-- Claim C3, code-bug evidence: at coverage `{0001-01-05}` and range
0001-01-01 .. 0001-01-31 the planner emits a Monthly task whose date range
contains the already-covered date 0001-01-05, contradicting the guarantee
that no task is emitted for a covered date.  The comment above line 68
(`Check if all dates in the month are missing`) describes a disjointness
test, under which the guarantee would hold, but the code tests
`not issubset` instead. -/
theorem C3_bug_thm :
    FetchTask.monthly ⟨1, 1, 1⟩ ⟨1, 2, 1⟩ ∈ planTasks [⟨1, 1, 5⟩] ⟨1, 1, 1⟩ ⟨1, 1, 31⟩ ∧
      (⟨1, 1, 5⟩ : Date) ∈ taskDates (FetchTask.monthly ⟨1, 1, 1⟩ ⟨1, 2, 1⟩) ∧
      ([⟨1, 1, 5⟩] : List Date).contains ⟨1, 1, 5⟩ = true :=
  ⟨by decide, by decide, by decide⟩

/-- Claim C4, counterexample: the final write truncates the destination file
itself before streaming the rows, so a crash after the first file operation
leaves neither the previous content `[9, 9, 9]` nor the full new content
`[1, 2, 3]` but an empty half-written file — there is no
write-new-then-replace discipline. -/
theorem C4_cex :
    applyOps (fun p => if p = 0 then some [9, 9, 9] else none)
        ((persistOps 0 [[1, 2, 3]]).take 1) 0 = some [] ∧
      some ([] : List Nat) ≠ some [9, 9, 9] ∧ some ([] : List Nat) ≠ some [1, 2, 3] :=
  ⟨rfl, by decide, by decide⟩

/-- Claim C4, amended: persisting the merged dataset writes directly over the
destination file: the first operation of the persist sequence truncates the
destination to empty (so the previous version is already lost while the new
one is not yet written), and only after all row writes does the destination
hold exactly the new content. -/
theorem C4_amended_thm (fs : Nat → Option (List Nat)) (target : Nat)
    (rows : List (List Nat)) :
    applyOps fs ((persistOps target rows).take 1) target = some [] ∧
      applyOps fs (persistOps target rows) target = some rows.flatten := by
  constructor
  · show applyOps fs [FileOp.openTrunc target] target = some []
    simp [applyOps, applyOp]
  · have h0 : (applyOp fs (FileOp.openTrunc target)) target = some [] := by
      simp [applyOp]
    have h1 := applyOps_writeChunks target rows (applyOp fs (FileOp.openTrunc target)) [] h0
    calc applyOps fs (persistOps target rows) target
        = applyOps (applyOp fs (FileOp.openTrunc target))
            (rows.map fun r => FileOp.writeChunk target r) target := by
          rw [show persistOps target rows = FileOp.openTrunc target ::
              ((rows.map fun r => FileOp.writeChunk target r) ++ [FileOp.closeFile target])
            from rfl, applyOps_cons, applyOps_append]
          rfl
      _ = some ([] ++ rows.flatten) := h1
      _ = some rows.flatten := by simp

/-- Claim C5, counterexample: with `rate_limit_sleep = 2` and `max_backoff =
1`, one rate-limit failure then success sleeps a total of 2 seconds, while
the claimed formula gives `min(2 * 2^0, 1) = 1`: the first sleep of the
source is the raw `rate_limit_sleep`, never capped by `max_backoff` (the cap
is applied only when doubling, line 40). -/
theorem C5_cex :
    download_with_backoff
        (fun i => if i = 0 then Except.error ⟨[52, 50, 57]⟩ else Except.ok ()) 2 1 2 =
      some ([2], Except.ok ()) ∧
      ¬(([2] : List Nat).sum = min (2 * 2 ^ 0) 1) :=
  ⟨rfl, by decide⟩

/-- Claim C5, amended: provided the initial sleep does not exceed the cap
(`init <= maxB`, as with the defaults 1 and 64), if the wrapped operation
fails with a rate-limit error exactly `k` times and then succeeds, the
backoff loop returns success and the total time slept equals
`sum over i < k of min(init * 2^i, maxB)`. -/
theorem C5_amended_thm (k init maxB : Nat) (op : Nat → Except DlError Unit)
    (hinit : init ≤ maxB)
    (hfail : ∀ i, i < k → ∃ e, op i = Except.error e ∧ isRateLimit e = true)
    (hok : op k = Except.ok ()) :
    ∃ sleeps, download_with_backoff op init maxB (k + 1) = some (sleeps, Except.ok ()) ∧
      sleeps.sum = ∑ i ∈ Finset.range k, min (init * 2 ^ i) maxB := by
  refine ⟨(List.range k).map fun i => min (init * 2 ^ i) maxB, ?_, ?_⟩
  · unfold download_with_backoff
    refine backoff_sleeps op maxB k 0 init hinit ?_ ?_
    · intro i hi
      rw [Nat.zero_add]
      exact hfail i hi
    · rw [Nat.zero_add]
      exact hok
  · exact sum_map_range_eq _ k

/-- Witness for the amended claim C5: two rate-limit failures then success
with initial sleep 1 and cap 64. -/
theorem C5_witness :
    ∃ sleeps, download_with_backoff
        (fun i => if i < 2 then Except.error ⟨[52, 50, 57]⟩ else Except.ok ()) 1 64 3 =
        some (sleeps, Except.ok ()) ∧
      sleeps.sum = ∑ i ∈ Finset.range 2, min (1 * 2 ^ i) 64 :=
  C5_amended_thm 2 1 64 _ (by decide)
    (fun i hi => ⟨⟨[52, 50, 57]⟩, by rw [if_pos hi], by decide⟩)
    (by norm_num)

/-- Claim C6, counterexample: with start 0002-03-10 strictly after end
0002-01-20 the run plans no tasks and completes normally reporting no new
data (`"No new data to add."`), even though the fetch collaborator would
return records — no `ConfigError` or any other error is raised, so the
claimed fatal failure does not happen. -/
theorem C6_cex :
    dateLt ⟨2, 1, 20⟩ ⟨2, 3, 10⟩ = true ∧
      planTasks [] ⟨2, 3, 10⟩ ⟨2, 1, 20⟩ = [] ∧
      runSync [] (fun _ => ⟨1, 1, 1⟩) ⟨2, 3, 10⟩ ⟨2, 1, 20⟩ []
          (fun _ => some [⟨0, []⟩]) = SyncOutcome.noNewData :=
  ⟨by decide, by decide, by decide⟩

/-- Claim C6, amended: for every configuration with start strictly after end
(both valid dates), the planner emits no fetch task at all and the run
completes normally with the no-new-data outcome, for any coverage, dataset
and fetch collaborator; no error is raised. -/
theorem C6_amended_thm (cov : List Date) (dateOfTs : Nat → Date) (s e : Date)
    (old : List Record) (fetchRes : FetchTask → Option (List Record))
    (hs : validDate s) (he : validDate e) (hlt : dateLt e s = true) :
    planTasks cov s e = [] ∧
      runSync cov dateOfTs s e old fetchRes = SyncOutcome.noNewData := by
  have h1 := planTasks_eq_nil_of_end_lt (C := cov) hs he hlt
  refine ⟨h1, ?_⟩
  unfold runSync collectNewFrames
  rw [h1]
  rfl

/-- Witness for the amended claim C6 at a concrete input. -/
theorem C6_witness :
    planTasks [] ⟨2, 3, 10⟩ ⟨2, 1, 20⟩ = [] ∧
      runSync [] (fun _ => ⟨1, 1, 1⟩) ⟨2, 3, 10⟩ ⟨2, 1, 20⟩ []
          (fun _ => some [⟨0, []⟩]) = SyncOutcome.noNewData :=
  C6_amended_thm [] (fun _ => ⟨1, 1, 1⟩) ⟨2, 3, 10⟩ ⟨2, 1, 20⟩ []
    (fun _ => some [⟨0, []⟩]) (by decide) (by decide) (by decide)

/-- Claim C7: if the first invocation of the wrapped operation fails with an
error that is not a rate-limit signal, `download_with_backoff` re-raises that
same error immediately, performs no retry and does not sleep at all (the
list of performed sleeps is empty). -/
theorem C7_thm (op : Nat → Except DlError Unit) (init maxB fuel : Nat) (e : DlError)
    (h1 : op 0 = Except.error e) (h2 : isRateLimit e = false) :
    download_with_backoff op init maxB (fuel + 1) = some ([], Except.error e) := by
  unfold download_with_backoff
  rw [downloadWithBackoffAux, h1]
  simp [h2]

/-- Witness for claim C7: an operation failing with message `boom`. -/
theorem C7_witness :
    download_with_backoff (fun _ => Except.error ⟨[98, 111, 111, 109]⟩) 1 64 5 =
      some ([], Except.error ⟨[98, 111, 111, 109]⟩) :=
  C7_thm (fun _ => Except.error ⟨[98, 111, 111, 109]⟩) 1 64 4 ⟨[98, 111, 111, 109]⟩
    rfl (by decide)

/-- Claim C8: for every existing dataset and every incoming record list, in
any order, the merged dataset is strictly sorted ascending by timestamp — in
particular it contains no two records with the same timestamp. -/
theorem C8_thm (old incoming : List Record) :
    (mergeRecords old incoming).Pairwise recLt :=
  mergeRecords_pairwise_lt old incoming

/-- Claim C9, counterexample: line 126 guards the merge block on the list of
per-task DataFrames, not on the number of incoming records — with one
collected frame whose every row was filtered out (zero incoming records),
the program still enters the merge block and rewrites the dataset file
(printing `Updated ...`): the rewritten flag is `true`, falsifying the
claimed no-op-with-no-rewrite on empty incoming. -/
theorem C9_cex :
    persistStep [⟨0, [1]⟩] [[]] = ([⟨0, [1]⟩], true) ∧
      ([[]] : List (List Record)).flatten = [] :=
  ⟨by decide, rfl⟩

/-- Claim C9, amended: re-merging the same records changes nothing
(`merge(merge(D, R), R) = merge(D, R)`), and when no frame at all was
collected (`all_new_rows` empty) the dataset is left unchanged with no
rewrite; but when at least one frame was collected and every record of every
frame was filtered out (zero incoming records), the program rewrites the
dataset file anyway — with identical content `D`, given the dataset
invariant that `D` is strictly sorted by timestamp. -/
theorem C9_amended_thm (D R : List Record) (frames : List (List Record))
    (hD : D.Pairwise recLt) :
    persistStep D [] = (D, false) ∧
      mergeRecords (mergeRecords D R) R = mergeRecords D R ∧
      (frames.isEmpty = false → frames.flatten = [] →
        persistStep D frames = (D, true)) := by
  refine ⟨rfl, mergeRecords_idem D R, ?_⟩
  intro h1 h2
  unfold persistStep
  rw [h2, if_neg (by rw [h1]; simp)]
  rw [mergeRecords_nil_of_sorted hD]

/-- Witness for the amended claim C9: a one-record dataset and one collected
frame whose records were all filtered out — the dataset is rewritten with
unchanged content. -/
theorem C9_witness :
    persistStep [(⟨0, [1]⟩ : Record)] [[]] = ([⟨0, [1]⟩], true) :=
  (C9_amended_thm [⟨0, [1]⟩] [] [[]] (by decide)).2.2 (by decide) rfl

/-- Claim C10: provided the existing dataset satisfies its invariant
(strictly sorted by timestamp), every fetched record whose calendar date is
already in the coverage derived at the start of the run is discarded before
merging, and the persisted records whose dates were covered before the run
are exactly the pre-existing records, unchanged by the sync. -/
theorem C10_thm (old F : List Record) (hso : old.Pairwise recLt) :
    (∀ r ∈ F, (get_existing_dates old).contains (dateNumOf r.ts) = true →
        r ∉ filterNewRows (get_existing_dates old) F) ∧
      (mergeRecords old (filterNewRows (get_existing_dates old) F)).filter
          (fun r => (get_existing_dates old).contains (dateNumOf r.ts)) = old := by
  constructor
  · intro r _ hcont hmem
    have h1 := List.of_mem_filter hmem
    rw [hcont] at h1
    simp at h1
  · have hpwne : old.Pairwise fun a b => a.ts ≠ b.ts :=
      hso.imp fun {a b} h => Nat.ne_of_lt h
    have hfcov : ∀ a ∈ filterNewRows (get_existing_dates old) F,
        (get_existing_dates old).contains (dateNumOf a.ts) = false := by
      intro a ha
      have h1 := List.of_mem_filter ha
      simpa using h1
    have hsplit := dedupKeysAux_append_split old (filterNewRows (get_existing_dates old) F)
      [] hpwne (fun a _ => rfl)
    have h1 : old.filter (fun r => (get_existing_dates old).contains (dateNumOf r.ts)) = old := by
      rw [List.filter_eq_self]
      intro a ha
      have hmm2 : dateNumOf a.ts ∈ get_existing_dates old := by
        show dateNumOf a.ts ∈ old.map fun r => dateNumOf r.ts
        exact List.mem_map_of_mem _ ha
      exact contains_of_mem hmm2
    have h2 : (dedupKeysAux ((old.reverse.map fun a => a.ts) ++ [])
          (filterNewRows (get_existing_dates old) F)).filter
          (fun r => (get_existing_dates old).contains (dateNumOf r.ts)) = [] := by
      rw [List.filter_eq_nil_iff]
      intro a ha
      have h3 := hfcov a (mem_of_mem_dedupKeysAux ha)
      rw [h3]
      simp
    have hperm : ((mergeRecords old (filterNewRows (get_existing_dates old) F)).filter
          fun r => (get_existing_dates old).contains (dateNumOf r.ts)).Perm old := by
      have hp := (mergeRecords_perm old (filterNewRows (get_existing_dates old) F)).filter
        (fun r => (get_existing_dates old).contains (dateNumOf r.ts))
      rw [show dedupByTs (old ++ filterNewRows (get_existing_dates old) F) =
            dedupKeysAux [] (old ++ filterNewRows (get_existing_dates old) F) from rfl,
        hsplit, List.filter_append, h1, h2, List.append_nil] at hp
      exact hp
    have hsrt : ((mergeRecords old (filterNewRows (get_existing_dates old) F)).filter
        fun r => (get_existing_dates old).contains (dateNumOf r.ts)).Pairwise recLt :=
      (mergeRecords_pairwise_lt old (filterNewRows (get_existing_dates old) F)).sublist
        (List.filter_sublist _)
    exact eq_of_perm_of_pairwise_lt hperm hsrt hso

/-- Witness for claim C10: a dataset covering epoch days 0 and 1, with
fetched records on a covered day (discarded) and on day 2 (kept). -/
theorem C10_witness :
    (∀ r ∈ ([⟨5, [9]⟩, ⟨172800000, [3]⟩] : List Record),
        (get_existing_dates [⟨0, [1]⟩, ⟨86400000, [2]⟩]).contains (dateNumOf r.ts) = true →
        r ∉ filterNewRows (get_existing_dates [⟨0, [1]⟩, ⟨86400000, [2]⟩])
            [⟨5, [9]⟩, ⟨172800000, [3]⟩]) ∧
      (mergeRecords [⟨0, [1]⟩, ⟨86400000, [2]⟩]
          (filterNewRows (get_existing_dates [⟨0, [1]⟩, ⟨86400000, [2]⟩])
            [⟨5, [9]⟩, ⟨172800000, [3]⟩])).filter
          (fun r => (get_existing_dates [⟨0, [1]⟩, ⟨86400000, [2]⟩]).contains
            (dateNumOf r.ts)) = [⟨0, [1]⟩, ⟨86400000, [2]⟩] :=
  C10_thm [⟨0, [1]⟩, ⟨86400000, [2]⟩] [⟨5, [9]⟩, ⟨172800000, [3]⟩] (by decide)
